import Mathlib

/-!
Verification of the adaptive m3u8 harvesting pipeline
(`extract_m3u8.py`, `download_m3u8_files.py`).

The Python sources are shallowly embedded as executable Lean functions:
pure string manipulation becomes functions on `String` / `List Char`,
the network and browser collaborators become oracle parameters, and the
stateful pass scheduler becomes fuel-indexed structural recursion whose
fuel is the fixed pass cap.  Side effects (HTTP requests, file writes,
sleeps) are recorded in explicit event traces.
-/

/-! ## Generic string helpers (Python `str` semantics) -/

/-- List-level test that `p` is an initial segment of `s`
(Python `str.startswith`). -/
def listBegins : List Char → List Char → Bool
  | [], _ => true
  | _ :: _, [] => false
  | p :: ps, c :: cs => p = c && listBegins ps cs

/-- `strBegins s pat` models Python `s.startswith(pat)`. -/
def strBegins (s pat : String) : Bool := listBegins pat.data s.data

/-- Python `str.strip()` default whitespace set. -/
def isSpaceChar (c : Char) : Bool :=
  c = ' ' || c = '\t' || c = '\n' || c = '\r' || c = '\x0b' || c = '\x0c'

/-- Drop characters satisfying `p` from both ends
(Python `str.strip(chars)` on a character list). -/
def dropEnds (p : Char → Bool) (l : List Char) : List Char :=
  ((l.dropWhile p).reverse.dropWhile p).reverse

/-- Python `line.strip()`. -/
def pyStrip (s : String) : String := ⟨dropEnds isSpaceChar s.data⟩

/-- Python `list.insert(n, a)`: insert at index `n`, clamping to the end
when `n` exceeds the length. -/
def pyInsert (n : Nat) (a : α) (l : List α) : List α :=
  l.take n ++ a :: l.drop n

/-- Python `dict.get(k)` over an insertion-ordered association list. -/
def lookupCache (cache : List (String × String)) (k : String) : Option String :=
  match cache with
  | [] => none
  | (k2, v) :: rest => if k2 = k then some v else lookupCache rest k

/-- Python `dict[k] = v`: overwrite an existing key in place, otherwise
append the new binding (dicts preserve insertion order). -/
def cacheSet (cache : List (String × String)) (k v : String) : List (String × String) :=
  match cache with
  | [] => [(k, v)]
  | (k2, v2) :: rest => if k2 = k then (k2, v) :: rest else (k2, v2) :: cacheSet rest k v

/-! ## URL parsing (model of Python `urllib.parse.urlparse`)

The pipeline calls `urlparse(url).netloc` and `urlparse(url).scheme` on
`scheme://host/...` URLs.  We model the relevant fragment of the stdlib:
a scheme is everything before the first `':'` when it is a letter
followed by letters/digits/`+-.` (lowercased), and the netloc follows a
`"//"` and runs until the next `'/'`, `'?'` or `'#'`. -/

def isSchemeChar (c : Char) : Bool :=
  c.isAlpha || c.isDigit || c = '+' || c = '-' || c = '.'

def validScheme : List Char → Bool
  | [] => false
  | c :: rest => c.isAlpha && rest.all isSchemeChar

/-- Split a character list at the first `':'`. -/
def splitColon (acc : List Char) : List Char → Option (List Char × List Char)
  | [] => none
  | c :: rest => if c = ':' then some (acc.reverse, rest) else splitColon (c :: acc) rest

/-- `(scheme, remainder)` of a URL; the scheme is `[]` when absent. -/
def parseScheme (url : List Char) : List Char × List Char :=
  match splitColon [] url with
  | some (pre, post) =>
    if validScheme pre then (pre.map Char.toLower, post) else ([], url)
  | none => ([], url)

def isNetlocStop (c : Char) : Bool := c = '/' || c = '?' || c = '#'

/-- Netloc of the post-scheme part: present only after `"//"`. -/
def netlocOf : List Char → List Char
  | '/' :: '/' :: rest => rest.takeWhile (fun c => !(isNetlocStop c))
  | _ => []

/-- `get_domain` from `extract_m3u8.py`: `urlparse(url).netloc`,
i.e. the host portion of the URL, without the scheme. -/
def get_domain (url : String) : String := ⟨netlocOf (parseScheme url.data).2⟩

/-- `urlparse(url).scheme`. -/
def urlScheme (url : String) : String := ⟨(parseScheme url.data).1⟩

/-- `f"{parsed.scheme}://{parsed.netloc}"` from `download_m3u8` in
`download_m3u8_files.py`. -/
def urlHost (url : String) : String := urlScheme url ++ "://" ++ get_domain url

/-! ## Constants

Configuration constants of the two scripts, with their source values. -/

/-- `extract_m3u8.py`: `REQUEST_TIMEOUT = 8000` (milliseconds). -/
def REQUEST_TIMEOUT : Nat := 8000

def EX_INITIAL_CONCURRENCY : Nat := 4
def EX_MAX_CONCURRENCY : Nat := 8
def EX_MIN_CONCURRENCY : Nat := 1
def EX_MAX_PASSES : Nat := 5

/-- `CONCURRENCY_STEP = 1` in both `extract_m3u8.py` and
`download_m3u8_files.py`. -/
def CONCURRENCY_STEP : Nat := 1

/-- `download_m3u8_files.py`: `RETRIES = 3`. -/
def RETRIES : Nat := 3

/-- `download_m3u8_files.py`: `JITTER_MIN, JITTER_MAX = 0.2, 0.6`
(seconds; the Python floats are idealised as the rationals 2/10 and
6/10). -/
def JITTER_MIN : ℚ := mkRat 2 10

def JITTER_MAX : ℚ := mkRat 6 10

def DL_INITIAL_CONCURRENCY : Nat := 8
def DL_MAX_CONCURRENCY : Nat := 10
def DL_MIN_CONCURRENCY : Nat := 1
def DL_MAX_PASSES : Nat := 5

/-! ## Candidate ordering and per-job resolution (`extract_m3u8.py`)

`process_episode` first reorders the candidate `(player-name, url)` list
using the shared `domain_cache`, then tries each candidate in order with
the single fixed timeout `REQUEST_TIMEOUT`; the first success updates
the cache at key `get_domain url` and stops the loop. -/

/-- The cache-hit test of the prioritisation loop in `process_episode`:
`domain_cache.get(get_domain(url)) == pname`. -/
def cacheHit (cache : List (String × String)) (c : String × String) : Bool :=
  lookupCache cache (get_domain c.2) == some c.1

/-- The loop `for i, (pname, url) in enumerate(ordered): if ... :
ordered.insert(0, ordered.pop(i)); break` — find the first cache hit and
return it together with the remaining list in original order. -/
def promoteHit (cache : List (String × String)) :
    List (String × String) → Option ((String × String) × List (String × String))
  | [] => none
  | c :: rest =>
    if cacheHit cache c then some (c, rest)
    else
      match promoteHit cache rest with
      | some (h, rest2) => some (h, c :: rest2)
      | none => none

/-- The candidate order actually attempted by `process_episode`: the
first cache hit (if any) moved to the front, the rest kept in original
relative order. -/
def orderedCandidates (cache : List (String × String))
    (cands : List (String × String)) : List (String × String) :=
  match promoteHit cache cands with
  | some (h, rest) => h :: rest
  | none => cands

/-- Outcome of one job resolution in `process_episode`
(`extract_m3u8.py`): the trace of `(url, timeout)` attempts handed to
`extract_m3u8`, the result (`m3u8` URL and winning player), and the
updated `domain_cache`. -/
structure ResolveOut where
  trace : List (String × Nat)
  result : Option (String × String)
  cache : List (String × String)
deriving DecidableEq

/-- The candidate loop of `process_episode`: each candidate is attempted
once via `extract_m3u8(page, url)` (modelled by the oracle `tryC`,
called with the fixed `REQUEST_TIMEOUT`); on success the
`domain_cache[get_domain(url)] = player_name` write happens and the
loop returns. -/
def tryPlayers (tryC : String → Nat → Option String)
    (cache : List (String × String)) :
    List (String × String) → ResolveOut
  | [] => ⟨[], none, cache⟩
  | (pname, url) :: rest =>
    match tryC url REQUEST_TIMEOUT with
    | some m =>
      ⟨[(url, REQUEST_TIMEOUT)], some (m, pname), cacheSet cache (get_domain url) pname⟩
    | none =>
      let r := tryPlayers tryC cache rest
      ⟨(url, REQUEST_TIMEOUT) :: r.trace, r.result, r.cache⟩

/-- `process_episode` of `extract_m3u8.py` (per-job part): reorder the
candidates by the affinity cache, then run the attempt loop. -/
def processEpisodeExtract (tryC : String → Nat → Option String)
    (cache : List (String × String))
    (players : List (String × String)) : ResolveOut :=
  tryPlayers tryC cache (orderedCandidates cache players)

/-! ## Adaptive pass scheduler (`adaptive_runner`)

`adaptive_runner` has the same shape in `extract_m3u8.py` (lines
118-172) and `download_m3u8_files.py` (lines 134-173); only the
constants differ, so it is embedded once, parameterised by the bounds.
The per-job success observation becomes the oracle
`outcome : pass index → job → Bool`; the `while pending and passes <
MAX_PASSES` loop becomes structural recursion on the remaining pass
budget (`fuel`). -/

/-- The inter-pass concurrency adjustment (identical in both scripts):
`if success == total and concurrency < MAX: concurrency += STEP
elif success < total and concurrency > MIN: concurrency -= STEP`. -/
def adjustConcurrency (minC maxC conc total success : Nat) : Nat :=
  if success = total ∧ conc < maxC then conc + CONCURRENCY_STEP
  else if success < total ∧ minC < conc then conc - CONCURRENCY_STEP
  else conc

/-- Observable outcome of a run of `adaptive_runner`: the jobs still
pending at exit, the final concurrency, the total number of per-job
attempts, the concurrency value after each executed pass, and the job
set of each executed pass. -/
structure RunOut (α : Type) where
  pending : List α
  conc : Nat
  attempts : Nat
  concTrace : List Nat
  passJobs : List (List α)
deriving DecidableEq

/-- `adaptive_runner`: run passes while jobs remain pending and the pass
cap is not exhausted; each pass attempts every pending job, keeps the
failures as the next `pending`, and adjusts the concurrency budget. -/
def adaptiveRunner {α : Type} (minC maxC : Nat) (outcome : Nat → α → Bool) :
    Nat → Nat → List α → Nat → RunOut α
  | _, 0, pending, conc => ⟨pending, conc, 0, [], []⟩
  | passIdx, fuel + 1, pending, conc =>
    if pending.isEmpty then ⟨pending, conc, 0, [], []⟩
    else
      let total := pending.length
      let failed := pending.filter (fun j => !(outcome passIdx j))
      let success := total - failed.length
      let conc2 := adjustConcurrency minC maxC conc total success
      let r := adaptiveRunner minC maxC outcome (passIdx + 1) fuel failed conc2
      ⟨r.pending, r.conc, total + r.attempts, conc2 :: r.concTrace, pending :: r.passJobs⟩

/-! ## Safe filename derivation (`download_m3u8_files.py`)

`safe_name(title) = re.sub(r"[^a-zA-Z0-9]+", "_", title).strip("_")`:
every maximal run of non-alphanumeric characters is replaced by a single
underscore, then leading/trailing underscores are stripped. -/

/-- The character class `[a-zA-Z0-9]` of the regex. -/
def isAlnumAscii (c : Char) : Bool :=
  ('a' ≤ c && c ≤ 'z') || ('A' ≤ c && c ≤ 'Z') || ('0' ≤ c && c ≤ '9')

/-- `re.sub(r"[^a-zA-Z0-9]+", "_", ·)` on a character list: the flag
records whether we are inside a non-alphanumeric run whose replacement
underscore has already been emitted. -/
def collapseAux : Bool → List Char → List Char
  | _, [] => []
  | inRun, c :: rest =>
    if isAlnumAscii c then c :: collapseAux false rest
    else if inRun then collapseAux true rest
    else '_' :: collapseAux true rest

def collapseRuns (l : List Char) : List Char := collapseAux false l

/-- `safe_name` from `download_m3u8_files.py`. -/
def safe_name (title : String) : String :=
  ⟨dropEnds (fun c => c = '_') (collapseRuns title.data)⟩

/-! ## Manifest rewriting (`rewrite_m3u8` in `download_m3u8_files.py`) -/

/-- The inserted playlist-type marker. -/
def VOD : String := "#EXT-X-PLAYLIST-TYPE:VOD"

/-- The non-special per-line transform of the `rewrite_m3u8` loop,
applied to the stripped line: an absolute path (starts with `/` but not
`//`) is prefixed with the manifest origin, anything else is kept. -/
def lineRewrite (host t : String) : String :=
  if strBegins t "/" ∧ ¬ strBegins t "//" then host ++ t else t

/-- The `for i, line in enumerate(lines)` loop of `rewrite_m3u8`,
carrying the line index `i` and the `vod_inserted` flag; returns the
accumulated output and the final flag. -/
def rewriteLoop (host : String) : Nat → Bool → List String → List String × Bool
  | _, vod, [] => ([], vod)
  | i, vod, line :: rest =>
    let t := pyStrip line
    if i = 0 ∧ t = "#EXTM3U" then
      let r := rewriteLoop host (i + 1) vod rest
      (t :: r.1, r.2)
    else if vod = false ∧ strBegins t "#EXT-X-VERSION" = true then
      let r := rewriteLoop host (i + 1) true rest
      (t :: VOD :: r.1, r.2)
    else
      let r := rewriteLoop host (i + 1) vod rest
      (lineRewrite host t :: r.1, r.2)

/-- `rewrite_m3u8` (pure core): process all lines, then insert the VOD
marker at index 1 if no version tag line was seen. -/
def rewrite_m3u8 (host : String) (lines : List String) : List String :=
  let r := rewriteLoop host 0 false lines
  if r.2 then r.1 else pyInsert 1 VOD r.1

/-- Composite per-line transform: strip, then rewrite absolute paths
(used to state what `rewrite_m3u8` does to every processed line). -/
def procLine (host line : String) : String := lineRewrite host (pyStrip line)

/-- Index of the first line whose stripped form starts with the version
tag (the line after which `rewrite_m3u8` inserts the VOD marker). -/
def findVersionIdx : List String → Option Nat
  | [] => none
  | line :: rest =>
    if strBegins (pyStrip line) "#EXT-X-VERSION" then some 0
    else (findVersionIdx rest).map (· + 1)

/-! ## Manifest fetch (`download_m3u8` in `download_m3u8_files.py`)

The HTTP collaborator is an oracle mapping the attempt number to the
observed outcome: a response with a status and body, or a transport
error (any exception from the `session.get`/`read`).  The loop
`for attempt in range(RETRIES)` succeeds on a 200 response (writing the
body to `outpath` and returning the origin), sleeps a jitter delay after
any other outcome except on the last attempt, and re-raises the final
failure. -/

inductive HttpResult where
  | resp (status : Nat) (body : String)
  | err
deriving DecidableEq

/-- An attempt fails iff it raised (`err`) or `resp.status != 200`. -/
def isFail : HttpResult → Bool
  | .resp s _ => !(s == 200)
  | .err => true

def bodyOf : HttpResult → String
  | .resp _ b => b
  | .err => ""

/-- Side effects of the download stage. -/
inductive DlEv where
  | get (url : String) (r : HttpResult)
  | sleepJitter (lo hi : ℚ)
  | mkdirp (path : String)
  | writeFile (path : String) (data : String)
  | rewriteFile (path : String)
deriving DecidableEq

/-- The retry loop of `download_m3u8`, by remaining attempts (`fuel`
starts at `RETRIES`, `attempt` at 0 as in `range(RETRIES)`). -/
def downloadFrom (fetch : Nat → HttpResult) (url outpath : String) :
    Nat → Nat → List DlEv × Option String
  | _, 0 => ([], none)
  | attempt, fuel + 1 =>
    let r := fetch attempt
    if isFail r then
      if attempt < RETRIES - 1 then
        let rest := downloadFrom fetch url outpath (attempt + 1) fuel
        (DlEv.get url r :: DlEv.sleepJitter JITTER_MIN JITTER_MAX :: rest.1, rest.2)
      else ([DlEv.get url r], none)
    else
      ([DlEv.get url r, DlEv.writeFile outpath (bodyOf r)], some (urlHost url))

/-- `download_m3u8(session, url, outpath)`: the trace of its side
effects and its return value (`none` means the final failure was
re-raised to the caller). -/
def download_m3u8 (fetch : Nat → HttpResult) (url outpath : String) :
    List DlEv × Option String :=
  downloadFrom fetch url outpath 0 RETRIES

/-- Count of HTTP attempts in a download-stage event trace. -/
def getCount (evs : List DlEv) : Nat :=
  (evs.filter fun e => match e with | .get _ _ => true | _ => false).length

/-! ## Per-episode download job (`process_episode` in
`download_m3u8_files.py`) -/

/-- A download job `(channel, show, episode_title, info)`; `info` is the
JSON record: `none` models `null`, `some assoc` models a dict. -/
structure DlJob where
  channel : String
  showName : String
  episodeTitle : String
  info : Option (List (String × String))
deriving DecidableEq

/-- Python truthiness of `info` (`not info`): `null` and the empty dict
are falsy. -/
def infoFalsy : Option (List (String × String)) → Bool
  | none => true
  | some l => l.isEmpty

/-- `"m3u8_url" in info`. -/
def hasM3u8 : Option (List (String × String)) → Bool
  | none => false
  | some l => (lookupCache l "m3u8_url").isSome

/-- `info["m3u8_url"]` (only evaluated under the guard). -/
def infoUrl : Option (List (String × String)) → String
  | none => ""
  | some l => (lookupCache l "m3u8_url").getD ""

def BASE_DIR : String := "m3u8_files"

/-- Observable outcome of `process_episode` (download stage): the event
trace and the boolean written into `results[key]`. -/
structure EpOut where
  events : List DlEv
  ok : Bool
deriving DecidableEq

/-- `process_episode` of `download_m3u8_files.py`: a job whose `info` is
falsy or lacks `"m3u8_url"` is marked failed at once (before any
directory creation, sleep or HTTP request); otherwise the output path is
derived with `safe_name`, the manifest is downloaded with retries and
rewritten, and the result records success. -/
def processEpisodeDl (fetch : Nat → HttpResult) (job : DlJob) : EpOut :=
  if infoFalsy job.info ∨ ¬ hasM3u8 job.info then ⟨[], false⟩
  else
    let folder := BASE_DIR ++ "/" ++ safe_name job.channel ++ "/" ++ safe_name job.showName
    let outpath := folder ++ "/" ++ safe_name job.episodeTitle ++ ".m3u8"
    let dl := download_m3u8 fetch (infoUrl job.info) outpath
    ⟨DlEv.mkdirp folder :: DlEv.sleepJitter JITTER_MIN JITTER_MAX :: dl.1 ++
        (match dl.2 with | some _ => [DlEv.rewriteFile outpath] | none => []),
      dl.2.isSome⟩

/-- The per-pass job outcome fed to `adaptive_runner` by the download
stage. -/
def dlOutcome (fetch : Nat → HttpResult) (_passIdx : Nat) (job : DlJob) : Bool :=
  (processEpisodeDl fetch job).ok

/-! # Lemmas -/

/-! ## Scheduler lemmas -/

theorem adjustConcurrency_bounds (minC maxC conc total success : Nat)
    (h1 : minC ≤ conc) (h2 : conc ≤ maxC) :
    minC ≤ adjustConcurrency minC maxC conc total success ∧
      adjustConcurrency minC maxC conc total success ≤ maxC := by
  unfold adjustConcurrency CONCURRENCY_STEP
  split_ifs with ha hb <;> omega

theorem adaptiveRunner_nil {α : Type} (minC maxC : Nat) (outcome : Nat → α → Bool)
    (passIdx fuel conc : Nat) :
    adaptiveRunner minC maxC outcome passIdx fuel [] conc = ⟨[], conc, 0, [], []⟩ := by
  cases fuel <;> simp [adaptiveRunner]

theorem adaptiveRunner_concTrace_bounds {α : Type} (minC maxC : Nat)
    (outcome : Nat → α → Bool) :
    ∀ (fuel passIdx : Nat) (pending : List α) (conc : Nat),
      minC ≤ conc → conc ≤ maxC →
      ∀ c ∈ (adaptiveRunner minC maxC outcome passIdx fuel pending conc).concTrace,
        minC ≤ c ∧ c ≤ maxC := by
  intro fuel
  induction fuel with
  | zero => intro passIdx pending conc _ _ c hc; simp [adaptiveRunner] at hc
  | succ f ih =>
    intro passIdx pending conc hmin hmax c hc
    rw [adaptiveRunner] at hc
    by_cases hemp : pending.isEmpty
    · rw [if_pos hemp] at hc; simp at hc
    · rw [if_neg hemp] at hc
      simp only [List.mem_cons] at hc
      have hadj := adjustConcurrency_bounds minC maxC conc pending.length
        (pending.length - (pending.filter (fun j => !(outcome passIdx j))).length) hmin hmax
      rcases hc with h | h
      · rw [h]; exact hadj
      · exact ih (passIdx + 1) _ _ hadj.1 hadj.2 c h

theorem adaptiveRunner_attempts_le {α : Type} (minC maxC : Nat)
    (outcome : Nat → α → Bool) :
    ∀ (fuel passIdx : Nat) (pending : List α) (conc : Nat),
      (adaptiveRunner minC maxC outcome passIdx fuel pending conc).attempts ≤
        pending.length * fuel := by
  intro fuel
  induction fuel with
  | zero => intro passIdx pending conc; simp [adaptiveRunner]
  | succ f ih =>
    intro passIdx pending conc
    rw [adaptiveRunner]
    by_cases hemp : pending.isEmpty
    · rw [if_pos hemp]; simp
    · rw [if_neg hemp]
      simp only []
      have h1 : (pending.filter (fun j => !(outcome passIdx j))).length ≤ pending.length :=
        List.length_filter_le _ _
      have h2 := ih (passIdx + 1) (pending.filter (fun j => !(outcome passIdx j)))
        (adjustConcurrency minC maxC conc pending.length
          (pending.length - (pending.filter (fun j => !(outcome passIdx j))).length))
      have h3 : (pending.filter (fun j => !(outcome passIdx j))).length * f ≤
          pending.length * f := Nat.mul_le_mul_right f h1
      calc pending.length +
            (adaptiveRunner minC maxC outcome (passIdx + 1) f
              (pending.filter (fun j => !(outcome passIdx j)))
              (adjustConcurrency minC maxC conc pending.length
                (pending.length -
                  (pending.filter (fun j => !(outcome passIdx j))).length))).attempts
          ≤ pending.length + pending.length * f := by omega
        _ = pending.length * (f + 1) := by ring

theorem adaptiveRunner_passJobs_le {α : Type} (minC maxC : Nat)
    (outcome : Nat → α → Bool) :
    ∀ (fuel passIdx : Nat) (pending : List α) (conc : Nat),
      (adaptiveRunner minC maxC outcome passIdx fuel pending conc).passJobs.length ≤ fuel := by
  intro fuel
  induction fuel with
  | zero => intro passIdx pending conc; simp [adaptiveRunner]
  | succ f ih =>
    intro passIdx pending conc
    rw [adaptiveRunner]
    by_cases hemp : pending.isEmpty
    · rw [if_pos hemp]; simp
    · rw [if_neg hemp]
      simp only [List.length_cons]
      exact Nat.succ_le_succ (ih _ _ _)

theorem adaptiveRunner_stuck_job {α : Type} (minC maxC : Nat)
    (outcome : Nat → α → Bool) (j : α) (hout : ∀ i, outcome i j = false) :
    ∀ (fuel passIdx : Nat) (pending : List α) (conc : Nat), j ∈ pending →
      j ∈ (adaptiveRunner minC maxC outcome passIdx fuel pending conc).pending ∧
      (∀ p ∈ (adaptiveRunner minC maxC outcome passIdx fuel pending conc).passJobs, j ∈ p) ∧
      (adaptiveRunner minC maxC outcome passIdx fuel pending conc).passJobs.length = fuel := by
  intro fuel
  induction fuel with
  | zero => intro passIdx pending conc hj; simp [adaptiveRunner]; exact hj
  | succ f ih =>
    intro passIdx pending conc hj
    have hemp : pending.isEmpty = false := by
      rcases pending with _ | ⟨a, t⟩
      · simp at hj
      · rfl
    rw [adaptiveRunner, hemp]
    simp only [Bool.false_eq_true, if_false]
    have hjf : j ∈ pending.filter (fun j2 => !(outcome passIdx j2)) :=
      List.mem_filter.mpr ⟨hj, by rw [hout passIdx]; rfl⟩
    have hrec := ih (passIdx + 1) _
      (adjustConcurrency minC maxC conc pending.length
        (pending.length - (pending.filter (fun j2 => !(outcome passIdx j2))).length)) hjf
    refine ⟨hrec.1, ?_, ?_⟩
    · intro p hp
      simp only [List.mem_cons] at hp
      rcases hp with h | h
      · rw [h]; exact hj
      · exact hrec.2.1 p h
    · simp only [List.length_cons, hrec.2.2]

/-! ## Candidate promotion lemmas -/

theorem promoteHit_first (cache : List (String × String)) :
    ∀ (pre : List (String × String)) (c : String × String) (post : List (String × String)),
      (∀ c2 ∈ pre, cacheHit cache c2 = false) → cacheHit cache c = true →
      promoteHit cache (pre ++ c :: post) = some (c, pre ++ post) := by
  intro pre
  induction pre with
  | nil => intro c post _ hc; simp [promoteHit, hc]
  | cons a pre2 ih =>
    intro c post hpre hc
    have ha : cacheHit cache a = false := hpre a (List.mem_cons_self a pre2)
    have hpre2 : ∀ c2 ∈ pre2, cacheHit cache c2 = false :=
      fun c2 hc2 => hpre c2 (List.mem_cons_of_mem a hc2)
    rw [List.cons_append, promoteHit, ha]
    simp only [Bool.false_eq_true, if_false, ih c post hpre2 hc]
    rfl

theorem promoteHit_none (cache : List (String × String)) :
    ∀ (cands : List (String × String)), (∀ c ∈ cands, cacheHit cache c = false) →
      promoteHit cache cands = none := by
  intro cands
  induction cands with
  | nil => intro _; rfl
  | cons a rest ih =>
    intro h
    rw [promoteHit, h a (List.mem_cons_self a rest)]
    simp only [Bool.false_eq_true, if_false, ih fun c hc => h c (List.mem_cons_of_mem a hc)]

theorem orderedCandidates_first (cache : List (String × String))
    (pre : List (String × String)) (c : String × String) (post : List (String × String))
    (hpre : ∀ c2 ∈ pre, cacheHit cache c2 = false) (hc : cacheHit cache c = true) :
    orderedCandidates cache (pre ++ c :: post) = c :: (pre ++ post) := by
  rw [orderedCandidates, promoteHit_first cache pre c post hpre hc]

theorem orderedCandidates_no_hit (cache : List (String × String))
    (cands : List (String × String)) (h : ∀ c ∈ cands, cacheHit cache c = false) :
    orderedCandidates cache cands = cands := by
  rw [orderedCandidates, promoteHit_none cache cands h]

/-! ## Candidate attempt-loop lemmas -/

theorem tryPlayers_trace (tryC : String → Nat → Option String)
    (cache : List (String × String)) :
    ∀ (cands : List (String × String)),
      ∃ k, k ≤ cands.length ∧
        (tryPlayers tryC cache cands).trace =
          (cands.take k).map (fun c => (c.2, REQUEST_TIMEOUT)) ∧
        ((tryPlayers tryC cache cands).result = none → k = cands.length) := by
  intro cands
  induction cands with
  | nil => exact ⟨0, by simp [tryPlayers]⟩
  | cons c rest ih =>
    rcases c with ⟨pname, url⟩
    rcases h : tryC url REQUEST_TIMEOUT with _ | m
    · rcases ih with ⟨k, hk, htr, hres⟩
      refine ⟨k + 1, by simpa using Nat.succ_le_succ hk, ?_, ?_⟩
      · simp only [tryPlayers, h, List.take_succ_cons, List.map_cons, htr]
      · intro hnone
        simp only [tryPlayers, h] at hnone
        simp [hres hnone]
    · refine ⟨1, by simp, ?_, ?_⟩
      · simp [tryPlayers, h]
      · intro hnone
        simp [tryPlayers, h] at hnone

/-! ## String-prefix lemmas -/

theorem listBegins_head_eq (ps : List Char) (c : Char) :
    ∀ (ss : List Char), listBegins (c :: ps) ss = true → ss.head? = some c := by
  intro ss h
  rcases ss with _ | ⟨d, ds⟩
  · simp [listBegins] at h
  · rw [listBegins, Bool.and_eq_true] at h
    have hcd : c = d := by
      have := h.1
      simpa using this
    simp [hcd]

/-- A stripped line that starts with `'#'` is never origin-prefixed by
the rewrite loop. -/
theorem lineRewrite_hash (host t : String) (h : t.data.head? = some '#') :
    lineRewrite host t = t := by
  have hslash : strBegins t "/" = false := by
    rcases ht : t.data with _ | ⟨c, cs⟩
    · rw [ht] at h; simp at h
    · rw [ht] at h
      simp only [List.head?_cons, Option.some.injEq] at h
      simp [strBegins, listBegins, ht, h]
  rw [lineRewrite, if_neg]
  intro hcon
  rw [hslash] at hcon
  exact absurd hcon.1 (by simp)

/-! ## Rewrite-loop lemmas -/

theorem version_head (t : String) (h : strBegins t "#EXT-X-VERSION" = true) :
    t.data.head? = some '#' := by
  have he : ("#EXT-X-VERSION").data = '#' :: ("EXT-X-VERSION").data := rfl
  simp only [strBegins, he] at h
  exact listBegins_head_eq _ _ _ h

theorem procLine_extm3u (host : String) (l : String) (h : pyStrip l = "#EXTM3U") :
    procLine host l = pyStrip l := by
  rw [procLine]
  apply lineRewrite_hash
  rw [h]; rfl

theorem rewriteLoop_true (host : String) :
    ∀ (lines : List String) (i : Nat),
      rewriteLoop host i true lines = (lines.map (procLine host), true) := by
  intro lines
  induction lines with
  | nil => intro i; rfl
  | cons l rest ih =>
    intro i
    simp only [rewriteLoop, ih]
    by_cases h0 : i = 0 ∧ pyStrip l = "#EXTM3U"
    · rw [if_pos h0, List.map_cons, procLine_extm3u host l h0.2]
    · rw [if_neg h0, if_neg (by simp), List.map_cons]
      rfl

theorem rewriteLoop_false_none (host : String) :
    ∀ (lines : List String) (i : Nat), findVersionIdx lines = none →
      rewriteLoop host i false lines = (lines.map (procLine host), false) := by
  intro lines
  induction lines with
  | nil => intro i _; rfl
  | cons l rest ih =>
    intro i hfv
    rw [findVersionIdx] at hfv
    by_cases hc : strBegins (pyStrip l) "#EXT-X-VERSION" = true
    · rw [if_pos hc] at hfv; exact absurd hfv (by simp)
    · rw [if_neg (by simpa using hc)] at hfv
      have hrest : findVersionIdx rest = none := by
        rcases hr : findVersionIdx rest with _ | j
        · rfl
        · rw [hr] at hfv; simp at hfv
      simp only [rewriteLoop, ih (i + 1) hrest]
      by_cases h0 : i = 0 ∧ pyStrip l = "#EXTM3U"
      · rw [if_pos h0, List.map_cons, procLine_extm3u host l h0.2]
      · rw [if_neg h0, if_neg (fun hcon => hc hcon.2), List.map_cons]
        rfl

theorem rewriteLoop_false_some (host : String) :
    ∀ (lines : List String) (i j : Nat), findVersionIdx lines = some j →
      rewriteLoop host i false lines =
        ((lines.take (j + 1)).map (procLine host) ++
          VOD :: (lines.drop (j + 1)).map (procLine host), true) := by
  intro lines
  induction lines with
  | nil => intro i j h; simp [findVersionIdx] at h
  | cons l rest ih =>
    intro i j hfv
    rw [findVersionIdx] at hfv
    by_cases hc : strBegins (pyStrip l) "#EXT-X-VERSION" = true
    · rw [if_pos hc] at hfv
      have hj : j = 0 := by simpa using hfv.symm
      subst hj
      have hnot0 : ¬(i = 0 ∧ pyStrip l = "#EXTM3U") := by
        rintro ⟨_, he⟩
        rw [he] at hc
        exact absurd hc (by decide)
      have hcond : (True ∧ strBegins (pyStrip l) "#EXT-X-VERSION" = true) := ⟨trivial, hc⟩
      simp only [rewriteLoop]
      rw [if_neg hnot0, if_pos hcond, rewriteLoop_true host rest (i + 1)]
      have hp : procLine host l = pyStrip l := by
        rw [procLine]
        exact lineRewrite_hash host (pyStrip l) (version_head _ hc)
      simp [hp, List.take_succ_cons, List.drop_succ_cons]
    · rw [if_neg (by simpa using hc)] at hfv
      rcases hr : findVersionIdx rest with _ | j2
      · rw [hr] at hfv; simp at hfv
      · have hj : j = j2 + 1 := by
          rw [hr] at hfv
          simpa using hfv.symm
        subst hj
        simp only [rewriteLoop, ih (i + 1) j2 hr]
        by_cases h0 : i = 0 ∧ pyStrip l = "#EXTM3U"
        · rw [if_pos h0]
          simp only [List.take_succ_cons, List.drop_succ_cons, List.map_cons,
            procLine_extm3u host l h0.2, List.cons_append]
        · rw [if_neg h0, if_neg (fun hcon => hc hcon.2)]
          simp only [List.take_succ_cons, List.drop_succ_cons, List.map_cons, List.cons_append]
          rfl

theorem rewrite_m3u8_none (host : String) (lines : List String)
    (h : findVersionIdx lines = none) :
    rewrite_m3u8 host lines = pyInsert 1 VOD (lines.map (procLine host)) := by
  rw [rewrite_m3u8]
  simp [rewriteLoop_false_none host lines 0 h]

theorem rewrite_m3u8_some (host : String) (lines : List String) (j : Nat)
    (h : findVersionIdx lines = some j) :
    rewrite_m3u8 host lines =
      (lines.take (j + 1)).map (procLine host) ++
        VOD :: (lines.drop (j + 1)).map (procLine host) := by
  rw [rewrite_m3u8]
  simp [rewriteLoop_false_some host lines 0 j h]

/-! ## Safe-name lemmas -/

/-- No two adjacent characters are both outside `[A-Za-z0-9]`
(in particular no `"__"`): the shape guaranteed by run collapsing. -/
def noRuns : List Char → Bool
  | [] => true
  | [_] => true
  | a :: b :: rest => (isAlnumAscii a || isAlnumAscii b) && noRuns (b :: rest)

def chainR (a b : Char) : Prop := isAlnumAscii a = true ∨ isAlnumAscii b = true

theorem noRuns_iff_chain : ∀ l, noRuns l = true ↔ l.Chain' chainR := by
  intro l
  match l with
  | [] => simp [noRuns]
  | [a] => simp [noRuns]
  | a :: b :: rest =>
    rw [noRuns, List.chain'_cons, Bool.and_eq_true, noRuns_iff_chain (b :: rest)]
    simp [chainR, Bool.or_eq_true]

theorem noRuns_reverse (l : List Char) : noRuns l.reverse = noRuns l := by
  rw [Bool.eq_iff_iff, noRuns_iff_chain, noRuns_iff_chain, List.chain'_reverse]
  constructor
  · intro h; exact h.imp (fun _ _ hab => hab.symm)
  · intro h; exact h.imp (fun _ _ hab => hab.symm)

theorem noRuns_tail (a : Char) (t : List Char) (h : noRuns (a :: t) = true) :
    noRuns t = true := by
  rcases t with _ | ⟨b, t2⟩
  · rfl
  · rw [noRuns, Bool.and_eq_true] at h
    exact h.2

theorem noRuns_pair (a d : Char) (t : List Char) (h : noRuns (a :: t) = true)
    (hd : t.head? = some d) : (isAlnumAscii a || isAlnumAscii d) = true := by
  rcases t with _ | ⟨b, t2⟩
  · simp at hd
  · simp only [List.head?_cons, Option.some.injEq] at hd
    rw [noRuns, Bool.and_eq_true] at h
    rw [← hd]
    exact h.1

theorem noRuns_cons (a : Char) (t : List Char)
    (hhead : ∀ d, t.head? = some d → (isAlnumAscii a || isAlnumAscii d) = true)
    (ht : noRuns t = true) : noRuns (a :: t) = true := by
  rcases t with _ | ⟨b, t2⟩
  · rfl
  · rw [noRuns, Bool.and_eq_true]
    exact ⟨hhead b rfl, ht⟩

theorem noRuns_dropWhile (p : Char → Bool) :
    ∀ l, noRuns l = true → noRuns (l.dropWhile p) = true := by
  intro l
  induction l with
  | nil => intro h; exact h
  | cons a t ih =>
    intro h
    rw [List.dropWhile_cons]
    by_cases hp : p a
    · rw [if_pos hp]
      exact ih (noRuns_tail a t h)
    · rw [if_neg hp]
      exact h

theorem collapseAux_chars :
    ∀ (l : List Char) (b : Bool) (c : Char), c ∈ collapseAux b l →
      isAlnumAscii c = true ∨ c = '_' := by
  intro l
  induction l with
  | nil => intro b c hc; simp [collapseAux] at hc
  | cons a t ih =>
    intro b c hc
    rw [collapseAux] at hc
    by_cases ha : isAlnumAscii a = true
    · rw [if_pos ha] at hc
      rcases List.mem_cons.mp hc with h | h
      · rw [h]; exact Or.inl ha
      · exact ih false c h
    · rw [if_neg ha] at hc
      rcases b with _ | _
      · simp only [Bool.false_eq_true, if_false] at hc
        rcases List.mem_cons.mp hc with h | h
        · rw [h]; exact Or.inr rfl
        · exact ih true c h
      · simp only [if_true] at hc
        exact ih true c hc

theorem collapseAux_true_head :
    ∀ (l : List Char) (d : Char), (collapseAux true l).head? = some d →
      isAlnumAscii d = true := by
  intro l
  induction l with
  | nil => intro d hd; simp [collapseAux] at hd
  | cons a t ih =>
    intro d hd
    rw [collapseAux] at hd
    by_cases ha : isAlnumAscii a = true
    · rw [if_pos ha] at hd
      simp only [List.head?_cons, Option.some.injEq] at hd
      rw [← hd]; exact ha
    · rw [if_neg ha, if_pos rfl] at hd
      exact ih d hd

theorem collapseAux_noRuns : ∀ (l : List Char) (b : Bool),
    noRuns (collapseAux b l) = true := by
  intro l
  induction l with
  | nil => intro b; rfl
  | cons a t ih =>
    intro b
    rw [collapseAux]
    by_cases ha : isAlnumAscii a = true
    · rw [if_pos ha]
      exact noRuns_cons a _ (fun d _ => by simp [ha]) (ih false)
    · rw [if_neg ha]
      rcases b with _ | _
      · simp only [Bool.false_eq_true, if_false]
        refine noRuns_cons '_' _ (fun d hd => ?_) (ih true)
        rw [collapseAux_true_head t d hd]
        simp
      · simp only [if_true]
        exact ih true

theorem collapseAux_id : ∀ (l : List Char),
    (∀ c ∈ l, isAlnumAscii c = true ∨ c = '_') → noRuns l = true →
    (collapseAux false l = l ∧
      ((∀ d, l.head? = some d → isAlnumAscii d = true) → collapseAux true l = l)) := by
  intro l
  induction l with
  | nil => intro _ _; exact ⟨rfl, fun _ => rfl⟩
  | cons a t ih =>
    intro hchars hruns
    have hct : ∀ c ∈ t, isAlnumAscii c = true ∨ c = '_' :=
      fun c hc => hchars c (List.mem_cons_of_mem a hc)
    have hrt : noRuns t = true := noRuns_tail a t hruns
    have iht := ih hct hrt
    constructor
    · by_cases ha : isAlnumAscii a = true
      · rw [collapseAux, if_pos ha, iht.1]
      · have ha2 : a = '_' := (hchars a (List.mem_cons_self a t)).resolve_left ha
        have hthead : ∀ d, t.head? = some d → isAlnumAscii d = true := by
          intro d hd
          have := noRuns_pair a d t hruns hd
          rw [Bool.or_eq_true] at this
          exact this.resolve_left ha
        rw [collapseAux, if_neg ha]
        simp only [Bool.false_eq_true, if_false, iht.2 hthead, ha2]
    · intro hhd
      have ha : isAlnumAscii a = true := hhd a rfl
      rw [collapseAux, if_pos ha, iht.1]

theorem head_of_dropWhile_ne (p : Char → Bool) (l : List Char) (d : Char)
    (h : (l.dropWhile p).head? = some d) : p d = false := by
  have := List.head?_dropWhile_not p l
  rw [h] at this
  simpa using this

theorem getLast?_dropWhile (p : Char → Bool) :
    ∀ (l : List Char), l.dropWhile p ≠ [] → (l.dropWhile p).getLast? = l.getLast? := by
  intro l
  induction l with
  | nil => intro h; simp at h
  | cons a t ih =>
    intro h
    rw [List.dropWhile_cons] at h ⊢
    by_cases hp : p a
    · simp only [hp, if_pos] at h ⊢
      rcases t with _ | ⟨b, t2⟩
      · simp [List.dropWhile] at h
      · rw [ih h, List.getLast?_cons_cons]
    · simp [hp]

theorem dropEnds_head? (p : Char → Bool) (l : List Char) (d : Char)
    (h : (dropEnds p l).head? = some d) : p d = false := by
  rw [dropEnds, List.head?_reverse] at h
  by_cases hne : (l.dropWhile p).reverse.dropWhile p = []
  · rw [hne] at h; simp at h
  · rw [getLast?_dropWhile p _ hne, List.getLast?_reverse] at h
    exact head_of_dropWhile_ne p l d h

theorem dropEnds_getLast? (p : Char → Bool) (l : List Char) (d : Char)
    (h : (dropEnds p l).getLast? = some d) : p d = false := by
  rw [dropEnds, List.getLast?_reverse] at h
  exact head_of_dropWhile_ne p _ d h

theorem dropEnds_chars (p : Char → Bool) (l : List Char) (c : Char)
    (h : c ∈ dropEnds p l) : c ∈ l := by
  rw [dropEnds, List.mem_reverse] at h
  have h2 := (List.dropWhile_sublist p).mem h
  rw [List.mem_reverse] at h2
  exact (List.dropWhile_sublist p).mem h2

theorem dropEnds_noRuns (p : Char → Bool) (l : List Char) (h : noRuns l = true) :
    noRuns (dropEnds p l) = true := by
  rw [dropEnds, noRuns_reverse]
  apply noRuns_dropWhile
  rw [noRuns_reverse]
  exact noRuns_dropWhile p l h

theorem dropWhile_eq_self (p : Char → Bool) (l : List Char)
    (h : ∀ d, l.head? = some d → p d = false) : l.dropWhile p = l := by
  rcases l with _ | ⟨a, t⟩
  · rfl
  · rw [List.dropWhile_cons, if_neg]
    rw [h a rfl]
    simp

theorem dropEnds_eq_self (p : Char → Bool) (l : List Char)
    (hh : ∀ d, l.head? = some d → p d = false)
    (hl : ∀ d, l.getLast? = some d → p d = false) : dropEnds p l = l := by
  rw [dropEnds, dropWhile_eq_self p l hh, dropWhile_eq_self p l.reverse
    (fun d hd => hl d (by rwa [List.head?_reverse] at hd)), List.reverse_reverse]

theorem safe_name_data (s : String) :
    (safe_name s).data = dropEnds (fun c => c = '_') (collapseRuns s.data) := rfl

theorem safe_name_chars (s : String) :
    ∀ c ∈ (safe_name s).data, isAlnumAscii c = true ∨ c = '_' := by
  intro c hc
  rw [safe_name_data] at hc
  exact collapseAux_chars s.data false c (dropEnds_chars _ _ c hc)

theorem safe_name_noRuns (s : String) : noRuns (safe_name s).data = true := by
  rw [safe_name_data]
  exact dropEnds_noRuns _ _ (collapseAux_noRuns s.data false)

theorem safe_name_head (s : String) : (safe_name s).data.head? ≠ some '_' := by
  intro h
  rw [safe_name_data] at h
  have := dropEnds_head? _ _ _ h
  simp at this

theorem safe_name_getLast (s : String) : (safe_name s).data.getLast? ≠ some '_' := by
  intro h
  rw [safe_name_data] at h
  have := dropEnds_getLast? _ _ _ h
  simp at this

theorem safe_name_idem (s : String) : safe_name (safe_name s) = safe_name s := by
  have hcoll : collapseRuns (safe_name s).data = (safe_name s).data := by
    rw [collapseRuns]
    exact (collapseAux_id (safe_name s).data (safe_name_chars s) (safe_name_noRuns s)).1
  have hdrop : dropEnds (fun c => c = '_') (safe_name s).data = (safe_name s).data := by
    apply dropEnds_eq_self
    · intro d hd
      have hne : ¬((safe_name s).data.head? = some '_') := safe_name_head s
      by_cases hd2 : d = '_'
      · rw [hd2] at hd; exact absurd hd hne
      · simpa using hd2
    · intro d hd
      have hne : ¬((safe_name s).data.getLast? = some '_') := safe_name_getLast s
      by_cases hd2 : d = '_'
      · rw [hd2] at hd; exact absurd hd hne
      · simpa using hd2
  show (⟨dropEnds (fun c => c = '_') (collapseRuns (safe_name s).data)⟩ : String) = safe_name s
  rw [hcoll, hdrop]

/-! ## URL-parsing lemmas -/

theorem string_ext (a b : String) (h : a.data = b.data) : a = b := by
  cases a; cases b; exact congrArg String.mk h

theorem splitColon_pre (pre : List Char) :
    ∀ (acc rest : List Char), (∀ c ∈ pre, c ≠ ':') →
      splitColon acc (pre ++ ':' :: rest) = some (acc.reverse ++ pre, rest) := by
  induction pre with
  | nil =>
    intro acc rest _
    simp [splitColon]
  | cons a pre2 ih =>
    intro acc rest hpre
    have ha : ¬(a = ':') := hpre a (List.mem_cons_self a pre2)
    rw [List.cons_append, splitColon, if_neg ha,
      ih (a :: acc) rest (fun c hc => hpre c (List.mem_cons_of_mem a hc))]
    simp

/-- `urlparse` on a well-formed `https://host/...` URL: the netloc is
exactly the host part and the scheme is `https`, for any host free of
the netloc terminators `/?#`. -/
theorem parse_https (host rest : String)
    (hh : ∀ c ∈ host.data, isNetlocStop c = false) :
    get_domain ("https://" ++ host ++ "/" ++ rest) = host ∧
      urlHost ("https://" ++ host ++ "/" ++ rest) = "https://" ++ host := by
  have hdata : ("https://" ++ host ++ "/" ++ rest).data =
      ['h', 't', 't', 'p', 's'] ++ ':' :: ('/' :: '/' :: (host.data ++ '/' :: rest.data)) := by
    simp only [String.data_append]
    simp
  have hsplit := splitColon_pre ['h', 't', 't', 'p', 's'] []
    ('/' :: '/' :: (host.data ++ '/' :: rest.data)) (by decide)
  have hparse : parseScheme ("https://" ++ host ++ "/" ++ rest).data =
      (['h', 't', 't', 'p', 's'], '/' :: '/' :: (host.data ++ '/' :: rest.data)) := by
    rw [parseScheme, hdata, hsplit]
    simp only [List.nil_append]
    rw [if_pos (by decide)]
    rfl
  have hnet : netlocOf ('/' :: '/' :: (host.data ++ '/' :: rest.data)) = host.data := by
    rw [netlocOf]
    rw [List.takeWhile_append_of_pos (by intro a haa; rw [hh a haa]; rfl)]
    simp [List.takeWhile_cons, isNetlocStop]
  constructor
  · rw [get_domain, hparse]
    simp only [hnet]
  · rw [urlHost, urlScheme, get_domain, hparse]
    simp only [hnet]
    apply string_ext
    simp [String.data_append]

/-! ## Download-retry lemmas -/

theorem downloadFrom_getCount (fetch : Nat → HttpResult) (url outpath : String) :
    ∀ (fuel attempt : Nat), getCount (downloadFrom fetch url outpath attempt fuel).1 ≤ fuel := by
  intro fuel
  induction fuel with
  | zero => intro attempt; simp [downloadFrom, getCount]
  | succ f ih =>
    intro attempt
    rw [downloadFrom]
    by_cases hf : isFail (fetch attempt) = true
    · rw [if_pos hf]
      by_cases ha : attempt < RETRIES - 1
      · rw [if_pos ha]
        simp only [getCount, List.filter, List.length_cons]
        have := ih (attempt + 1)
        simp only [getCount] at this
        omega
      · rw [if_neg ha]
        simp [getCount, List.filter]
    · rw [if_neg hf]
      simp [getCount, List.filter]

theorem download_ok0 (fetch : Nat → HttpResult) (url outpath : String)
    (h0 : isFail (fetch 0) = false) :
    download_m3u8 fetch url outpath =
      ([DlEv.get url (fetch 0), DlEv.writeFile outpath (bodyOf (fetch 0))],
        some (urlHost url)) := by
  simp [download_m3u8, RETRIES, downloadFrom, h0]

theorem download_ok1 (fetch : Nat → HttpResult) (url outpath : String)
    (h0 : isFail (fetch 0) = true) (h1 : isFail (fetch 1) = false) :
    download_m3u8 fetch url outpath =
      ([DlEv.get url (fetch 0), DlEv.sleepJitter JITTER_MIN JITTER_MAX,
        DlEv.get url (fetch 1), DlEv.writeFile outpath (bodyOf (fetch 1))],
        some (urlHost url)) := by
  simp [download_m3u8, RETRIES, downloadFrom, h0, h1]

theorem download_ok2 (fetch : Nat → HttpResult) (url outpath : String)
    (h0 : isFail (fetch 0) = true) (h1 : isFail (fetch 1) = true)
    (h2 : isFail (fetch 2) = false) :
    download_m3u8 fetch url outpath =
      ([DlEv.get url (fetch 0), DlEv.sleepJitter JITTER_MIN JITTER_MAX,
        DlEv.get url (fetch 1), DlEv.sleepJitter JITTER_MIN JITTER_MAX,
        DlEv.get url (fetch 2), DlEv.writeFile outpath (bodyOf (fetch 2))],
        some (urlHost url)) := by
  simp [download_m3u8, RETRIES, downloadFrom, h0, h1, h2]

theorem download_all_fail (fetch : Nat → HttpResult) (url outpath : String)
    (h0 : isFail (fetch 0) = true) (h1 : isFail (fetch 1) = true)
    (h2 : isFail (fetch 2) = true) :
    download_m3u8 fetch url outpath =
      ([DlEv.get url (fetch 0), DlEv.sleepJitter JITTER_MIN JITTER_MAX,
        DlEv.get url (fetch 1), DlEv.sleepJitter JITTER_MIN JITTER_MAX,
        DlEv.get url (fetch 2)], none) := by
  simp [download_m3u8, RETRIES, downloadFrom, h0, h1, h2]

theorem processEpisodeDl_bad (fetch : Nat → HttpResult) (job : DlJob)
    (hbad : infoFalsy job.info = true ∨ hasM3u8 job.info = false) :
    processEpisodeDl fetch job = ⟨[], false⟩ := by
  rw [processEpisodeDl, if_pos]
  rcases hbad with h | h
  · exact Or.inl h
  · exact Or.inr (by simp [h])

theorem processEpisodeDl_fail_all (fetch : Nat → HttpResult) (job : DlJob)
    (hif : infoFalsy job.info = false) (hhm : hasM3u8 job.info = true)
    (hall : ∀ i, isFail (fetch i) = true) :
    (processEpisodeDl fetch job).ok = false := by
  rw [processEpisodeDl, if_neg]
  · simp only [download_all_fail fetch _ _ (hall 0) (hall 1) (hall 2)]
    rfl
  · rintro (h | h)
    · rw [hif] at h; exact absurd h (by simp)
    · exact h hhm

/-! # Claims -/

/-- C1: for every sequence of pass outcomes the concurrency budget stays
within `[min, max]`; after each pass it increases by exactly one step
when every attempted job succeeded and the budget is below max,
decreases by exactly one step when any attempted job failed and the
budget is above min, and is otherwise unchanged; on an empty pass (no
pending jobs) the loop exits without touching the budget.  Stated for
the shared `adjustConcurrency` / `adaptiveRunner` embedding of
`adaptive_runner` (both scripts), whose initial budgets lie strictly
inside the respective bounds. -/
theorem c1_aimd_budget :
    (∀ minC maxC conc total success : Nat, minC ≤ conc → conc ≤ maxC →
      minC ≤ adjustConcurrency minC maxC conc total success ∧
        adjustConcurrency minC maxC conc total success ≤ maxC) ∧
    (∀ minC maxC conc total success : Nat, success = total → conc < maxC →
      adjustConcurrency minC maxC conc total success = conc + CONCURRENCY_STEP) ∧
    (∀ minC maxC conc total success : Nat, success < total → minC < conc →
      adjustConcurrency minC maxC conc total success = conc - CONCURRENCY_STEP) ∧
    (∀ minC maxC conc total success : Nat,
      ¬(success = total ∧ conc < maxC) → ¬(success < total ∧ minC < conc) →
      adjustConcurrency minC maxC conc total success = conc) ∧
    (∀ (α : Type) (minC maxC : Nat) (outcome : Nat → α → Bool) (passIdx fuel conc : Nat),
      adaptiveRunner minC maxC outcome passIdx fuel [] conc = ⟨[], conc, 0, [], []⟩) ∧
    (∀ (α : Type) (minC maxC : Nat) (outcome : Nat → α → Bool)
        (fuel passIdx : Nat) (pending : List α) (conc : Nat),
      minC ≤ conc → conc ≤ maxC →
      ∀ c ∈ (adaptiveRunner minC maxC outcome passIdx fuel pending conc).concTrace,
        minC ≤ c ∧ c ≤ maxC) ∧
    (EX_MIN_CONCURRENCY ≤ EX_INITIAL_CONCURRENCY ∧
      EX_INITIAL_CONCURRENCY ≤ EX_MAX_CONCURRENCY ∧ CONCURRENCY_STEP = 1) ∧
    (DL_MIN_CONCURRENCY ≤ DL_INITIAL_CONCURRENCY ∧
      DL_INITIAL_CONCURRENCY ≤ DL_MAX_CONCURRENCY) := by
  refine ⟨adjustConcurrency_bounds, ?_, ?_, ?_, ?_, ?_, by decide, by decide⟩
  · intro minC maxC conc total success h1 h2
    rw [adjustConcurrency, if_pos ⟨h1, h2⟩]
  · intro minC maxC conc total success h1 h2
    rw [adjustConcurrency, if_neg (fun hcon => absurd hcon.1 (Nat.ne_of_lt h1)),
      if_pos ⟨h1, h2⟩]
  · intro minC maxC conc total success h1 h2
    rw [adjustConcurrency, if_neg h1, if_neg h2]
  · intro α minC maxC outcome passIdx fuel conc
    exact adaptiveRunner_nil minC maxC outcome passIdx fuel conc
  · intro α minC maxC outcome fuel passIdx pending conc h1 h2
    exact adaptiveRunner_concTrace_bounds minC maxC outcome fuel passIdx pending conc h1 h2

/-- C1 witness: the hypotheses of `c1_aimd_budget` are satisfiable at
concrete inputs (a successful pass below max grows the budget by the
step; a failed pass shrinks it; a saturated budget is unchanged; the
concrete run of five all-failing passes keeps every budget value in
bounds). -/
theorem c1_aimd_budget_witness :
    (1 ≤ adjustConcurrency 1 8 4 3 3 ∧ adjustConcurrency 1 8 4 3 3 ≤ 8) ∧
    adjustConcurrency 1 8 4 3 3 = 4 + CONCURRENCY_STEP ∧
    adjustConcurrency 1 8 4 3 2 = 4 - CONCURRENCY_STEP ∧
    adjustConcurrency 1 8 8 3 3 = 8 ∧
    (1 ≤ 3 ∧ 3 ≤ 8) := by
  refine ⟨?_, ?_, ?_, ?_, ?_⟩
  · exact c1_aimd_budget.1 1 8 4 3 3 (by decide) (by decide)
  · exact c1_aimd_budget.2.1 1 8 4 3 3 rfl (by decide)
  · exact c1_aimd_budget.2.2.1 1 8 4 3 2 (by decide) (by decide)
  · exact c1_aimd_budget.2.2.2.1 1 8 8 3 3 (fun h => absurd h.2 (by decide))
      (fun h => absurd h.1 (by decide))
  · exact c1_aimd_budget.2.2.2.2.2.1 Unit 1 8 (fun _ _ => false) 5 0 [()] 4
      (by decide) (by decide) 3 (by decide)

/-- C2 counterexample: the affinity cache is keyed by the host
(`urlparse(url).netloc`), not by the scheme+host origin the claim (and
the spec glossary) describe.  A cache that maps candidate B's
scheme+host origin `https://b.example` to label `"B"` produces no
promotion at all: the computed order is `[A, B, C]`, not `[B, A, C]`. -/
theorem c2_affinity_promotion_counterexample :
    urlHost "https://b.example/x" = "https://b.example" ∧
    orderedCandidates [("https://b.example", "B")]
        [("A", "https://a.example/x"), ("B", "https://b.example/x"),
          ("C", "https://c.example/x")] =
      [("A", "https://a.example/x"), ("B", "https://b.example/x"),
        ("C", "https://c.example/x")] ∧
    orderedCandidates [("https://b.example", "B")]
        [("A", "https://a.example/x"), ("B", "https://b.example/x"),
          ("C", "https://c.example/x")] ≠
      [("B", "https://b.example/x"), ("A", "https://a.example/x"),
        ("C", "https://c.example/x")] := by
  decide

/-- C2 (amended): the attempt order is computed by scanning the
candidates in original order and moving the first candidate whose
affinity-cache entry for its URL's host (`get_domain`, the netloc
without the scheme) equals that candidate's label to the front, leaving
the others in their original relative order (at most one promotion);
with a cache mapping `get_domain(url_B) ↦ "B"`, `[A, B, C]` yields
`[B, A, C]`. -/
theorem c2_affinity_promotion :
    (∀ (cache pre : List (String × String)) (c : String × String)
        (post : List (String × String)),
      (∀ c2 ∈ pre, cacheHit cache c2 = false) → cacheHit cache c = true →
      orderedCandidates cache (pre ++ c :: post) = c :: (pre ++ post)) ∧
    (∀ (cache cands : List (String × String)),
      (∀ c ∈ cands, cacheHit cache c = false) →
      orderedCandidates cache cands = cands) ∧
    get_domain "https://b.example/x" = "b.example" ∧
    orderedCandidates [("b.example", "B")]
        [("A", "https://a.example/x"), ("B", "https://b.example/x"),
          ("C", "https://c.example/x")] =
      [("B", "https://b.example/x"), ("A", "https://a.example/x"),
        ("C", "https://c.example/x")] :=
  ⟨orderedCandidates_first, orderedCandidates_no_hit, by decide, by decide⟩

/-- C2 witness: the promotion law applied to the concrete `[A, B, C]`
example with a host-keyed cache hit on B. -/
theorem c2_affinity_promotion_witness :
    orderedCandidates [("b.example", "B")]
        ([("A", "https://a.example/x")] ++
          ("B", "https://b.example/x") :: [("C", "https://c.example/x")]) =
      ("B", "https://b.example/x") ::
        ([("A", "https://a.example/x")] ++ [("C", "https://c.example/x")]) :=
  c2_affinity_promotion.1 [("b.example", "B")] [("A", "https://a.example/x")]
    ("B", "https://b.example/x") [("C", "https://c.example/x")] (by decide) (by decide)

/-- C3 counterexample: a candidate that produces no manifest is
attempted exactly once, with the single fixed timeout
`REQUEST_TIMEOUT = 8000`; it is never retried with a longer ("slow")
timeout before the loop moves on, contrary to the claimed fast→slow
escalation (which would put two attempts for the same url, the second
with a larger timeout, in the trace). -/
theorem c3_timeout_escalation_counterexample :
    (processEpisodeExtract (fun _ _ => none) [] [("A", "https://a.example/p")]).trace =
      [("https://a.example/p", REQUEST_TIMEOUT)] ∧
    (processEpisodeExtract (fun _ _ => none) [] [("A", "https://a.example/p")]).result =
      none ∧
    (processEpisodeExtract (fun _ _ => none) [] [("A", "https://a.example/p")]).trace.length
      = 1 := by
  decide

/-- C3 (amended): during a job's resolution each candidate, in the
computed order, is attempted at most once, always with the single fixed
timeout `REQUEST_TIMEOUT`; the trace is exactly the first `k` ordered
candidates for some `k`, and only a success stops the loop before the
list is exhausted.  There is no per-candidate fast→slow timeout
escalation in the code. -/
theorem c3_single_fixed_timeout (tryC : String → Nat → Option String)
    (cache players : List (String × String)) :
    ∃ k, k ≤ (orderedCandidates cache players).length ∧
      (processEpisodeExtract tryC cache players).trace =
        ((orderedCandidates cache players).take k).map (fun c => (c.2, REQUEST_TIMEOUT)) ∧
      ((processEpisodeExtract tryC cache players).result = none →
        k = (orderedCandidates cache players).length) :=
  tryPlayers_trace tryC cache (orderedCandidates cache players)

/-- C3 witness: the single-fixed-timeout law at a concrete failing
job. -/
theorem c3_single_fixed_timeout_witness :
    ∃ k, k ≤ (orderedCandidates [] [("A", "https://a.example/p")]).length ∧
      (processEpisodeExtract (fun _ _ => none) [] [("A", "https://a.example/p")]).trace =
        ((orderedCandidates [] [("A", "https://a.example/p")]).take k).map
          (fun c => (c.2, REQUEST_TIMEOUT)) ∧
      ((processEpisodeExtract (fun _ _ => none) [] [("A", "https://a.example/p")]).result =
          none →
        k = (orderedCandidates [] [("A", "https://a.example/p")]).length) :=
  c3_single_fixed_timeout (fun _ _ => none) [] [("A", "https://a.example/p")]

/-- C4: the pass scheduler terminates (it executes at most `fuel` =
`MAX_PASSES` passes), the total number of per-job attempts over all
passes is at most `|jobs| × maxPasses`, and with no pending jobs the
loop performs no pass at all. -/
theorem c4_progress_bound :
    (∀ (α : Type) (minC maxC : Nat) (outcome : Nat → α → Bool)
        (passIdx fuel : Nat) (jobs : List α) (conc : Nat),
      (adaptiveRunner minC maxC outcome passIdx fuel jobs conc).attempts ≤
        jobs.length * fuel) ∧
    (∀ (α : Type) (minC maxC : Nat) (outcome : Nat → α → Bool)
        (passIdx fuel : Nat) (jobs : List α) (conc : Nat),
      (adaptiveRunner minC maxC outcome passIdx fuel jobs conc).passJobs.length ≤ fuel) ∧
    (∀ (α : Type) (minC maxC : Nat) (outcome : Nat → α → Bool) (passIdx fuel conc : Nat),
      adaptiveRunner minC maxC outcome passIdx fuel [] conc = ⟨[], conc, 0, [], []⟩) ∧
    EX_MAX_PASSES = 5 ∧ DL_MAX_PASSES = 5 :=
  ⟨fun _ minC maxC outcome passIdx fuel jobs conc =>
      adaptiveRunner_attempts_le minC maxC outcome fuel passIdx jobs conc,
    fun _ minC maxC outcome passIdx fuel jobs conc =>
      adaptiveRunner_passJobs_le minC maxC outcome fuel passIdx jobs conc,
    fun _ minC maxC outcome passIdx fuel conc =>
      adaptiveRunner_nil minC maxC outcome passIdx fuel conc,
    rfl, rfl⟩

/-- C5 counterexample: the rewrite loop detects the version tag on the
whitespace-stripped line and emits stripped lines.  For the input
`["#EXTM3U", "x", " #EXT-X-VERSION:3"]` no line *begins with* the
version-tag marker (the third starts with a space), so the claim places
the VOD marker at index 1 of the output; the code instead strips the
third line, fires the version rule there, and the output's index 1 is
`"x"`, not the marker. -/
theorem c5_vod_insertion_counterexample :
    rewrite_m3u8 "h" ["#EXTM3U", "x", " #EXT-X-VERSION:3"] =
      ["#EXTM3U", "x", "#EXT-X-VERSION:3", "#EXT-X-PLAYLIST-TYPE:VOD"] ∧
    (["#EXTM3U", "x", " #EXT-X-VERSION:3"].all
      (fun l => !(strBegins l "#EXT-X-VERSION"))) = true ∧
    (rewrite_m3u8 "h" ["#EXTM3U", "x", " #EXT-X-VERSION:3"]).getD 1 "" = "x" ∧
    "x" ≠ "#EXT-X-PLAYLIST-TYPE:VOD" := by
  decide

/-- C5 (amended): the playlist-type marker `VOD` is inserted exactly
once — immediately after the first line whose whitespace-stripped form
begins with the version-tag marker when such a line exists, otherwise at
index 1 of the processed output (Python `list.insert` semantics, so
clamped to the end of a shorter list); every processed line appears as
its stripped, possibly origin-prefixed form (`procLine`).  The two
example rewrites of the claim hold as stated. -/
theorem c5_vod_insertion :
    (∀ (host : String) (lines : List String),
      rewrite_m3u8 host lines =
        match findVersionIdx lines with
        | some j =>
          (lines.take (j + 1)).map (procLine host) ++
            VOD :: (lines.drop (j + 1)).map (procLine host)
        | none => pyInsert 1 VOD (lines.map (procLine host))) ∧
    rewrite_m3u8 "https://host" ["#EXTM3U", "#EXT-X-VERSION:3", "/a.ts"] =
      ["#EXTM3U", "#EXT-X-VERSION:3", "#EXT-X-PLAYLIST-TYPE:VOD", "https://host/a.ts"] ∧
    rewrite_m3u8 "https://host" ["#EXTM3U", "/a.ts"] =
      ["#EXTM3U", "#EXT-X-PLAYLIST-TYPE:VOD", "https://host/a.ts"] := by
  refine ⟨?_, by decide, by decide⟩
  intro host lines
  rcases h : findVersionIdx lines with _ | j
  · exact rewrite_m3u8_none host lines h
  · exact rewrite_m3u8_some host lines j h

/-- C6 counterexample: lines are whitespace-stripped before the
absolute-path test and before being emitted, so a line not matched by
the root-tag or version-tag rules does not in general pass through
unchanged (`" plain "` becomes `"plain"`), and a line that does not
begin with `/` can still be origin-prefixed (`" /a.ts"` becomes
`"h/a.ts"`). -/
theorem c6_path_rewrite_counterexample :
    rewrite_m3u8 "h" ["#EXTM3U", "#EXT-X-VERSION:3", " plain "] =
      ["#EXTM3U", "#EXT-X-VERSION:3", "#EXT-X-PLAYLIST-TYPE:VOD", "plain"] ∧
    "plain" ≠ " plain " ∧
    strBegins " /a.ts" "/" = false ∧
    rewrite_m3u8 "h" ["#EXTM3U", "#EXT-X-VERSION:3", " /a.ts"] =
      ["#EXTM3U", "#EXT-X-VERSION:3", "#EXT-X-PLAYLIST-TYPE:VOD", "h/a.ts"] := by
  decide

/-- C6 (amended): after stripping surrounding whitespace, every line
whose stripped form begins with `/` but not `//` is rewritten by
prefixing the stripped form with the `scheme://host` origin of the
manifest URL, and every other line (not matched by the root-tag or
version-tag rules) passes through as its stripped form; `/seg1.ts`
with host `https://cdn.example.com` becomes
`https://cdn.example.com/seg1.ts` while `//cdn.example.com/seg1.ts` is
kept. -/
theorem c6_path_rewrite :
    (∀ host t : String, strBegins t "/" = true → strBegins t "//" = false →
      lineRewrite host t = host ++ t) ∧
    (∀ host t : String, strBegins t "/" = false ∨ strBegins t "//" = true →
      lineRewrite host t = t) ∧
    (∀ host line : String, procLine host line = lineRewrite host (pyStrip line)) ∧
    rewrite_m3u8 "https://cdn.example.com"
        ["#EXTM3U", "#EXT-X-VERSION:3", "/seg1.ts", "//cdn.example.com/seg1.ts",
          " plain "] =
      ["#EXTM3U", "#EXT-X-VERSION:3", "#EXT-X-PLAYLIST-TYPE:VOD",
        "https://cdn.example.com/seg1.ts", "//cdn.example.com/seg1.ts", "plain"] ∧
    urlHost "https://cdn.example.com/play.m3u8" = "https://cdn.example.com" := by
  refine ⟨?_, ?_, fun _ _ => rfl, by decide, by decide⟩
  · intro host t h1 h2
    rw [lineRewrite, if_pos ⟨h1, by simp [h2]⟩]
  · intro host t h
    rw [lineRewrite, if_neg]
    rintro ⟨hc1, hc2⟩
    rcases h with h | h
    · rw [h] at hc1; exact absurd hc1 (by simp)
    · exact hc2 h

/-- C6 witness: the per-line rules applied at concrete lines. -/
theorem c6_path_rewrite_witness :
    lineRewrite "https://cdn.example.com" "/seg1.ts" =
      "https://cdn.example.com" ++ "/seg1.ts" ∧
    lineRewrite "https://cdn.example.com" "//cdn.example.com/seg1.ts" =
      "//cdn.example.com/seg1.ts" :=
  ⟨c6_path_rewrite.1 "https://cdn.example.com" "/seg1.ts" (by decide) (by decide),
    c6_path_rewrite.2.1 "https://cdn.example.com" "//cdn.example.com/seg1.ts"
      (Or.inr (by decide))⟩

/-- C7 counterexample: the fetch treats any status other than exactly
200 as a failure — not "non-2xx" as claimed.  A server answering 204
(a 2xx status) on every attempt still causes three attempts with jitter
waits between them and a final re-raised failure. -/
theorem c7_fetch_retry_counterexample :
    download_m3u8 (fun _ => HttpResult.resp 204 "x") "https://h/x.m3u8" "out" =
      ([DlEv.get "https://h/x.m3u8" (HttpResult.resp 204 "x"),
        DlEv.sleepJitter JITTER_MIN JITTER_MAX,
        DlEv.get "https://h/x.m3u8" (HttpResult.resp 204 "x"),
        DlEv.sleepJitter JITTER_MIN JITTER_MAX,
        DlEv.get "https://h/x.m3u8" (HttpResult.resp 204 "x")], none) ∧
    (200 ≤ 204 ∧ 204 < 300) ∧ isFail (HttpResult.resp 204 "x") = true := by
  decide

/-- C7 (amended): the manifest fetch makes at most `RETRIES = 3`
attempts; an attempt fails iff it raised a transport error or returned
a status other than exactly 200; after every failing attempt other than
the last, a jitter sleep in the fixed range
`[JITTER_MIN, JITTER_MAX]` precedes the retry; the final attempt's
failure is re-raised (result `none`) and `process_episode` then marks
the job failed for that pass. -/
theorem c7_fetch_retry (fetch : Nat → HttpResult) (url outpath : String) :
    getCount (download_m3u8 fetch url outpath).1 ≤ RETRIES ∧
    (isFail (fetch 0) = false →
      download_m3u8 fetch url outpath =
        ([DlEv.get url (fetch 0), DlEv.writeFile outpath (bodyOf (fetch 0))],
          some (urlHost url))) ∧
    (isFail (fetch 0) = true → isFail (fetch 1) = false →
      download_m3u8 fetch url outpath =
        ([DlEv.get url (fetch 0), DlEv.sleepJitter JITTER_MIN JITTER_MAX,
          DlEv.get url (fetch 1), DlEv.writeFile outpath (bodyOf (fetch 1))],
          some (urlHost url))) ∧
    (isFail (fetch 0) = true → isFail (fetch 1) = true → isFail (fetch 2) = false →
      download_m3u8 fetch url outpath =
        ([DlEv.get url (fetch 0), DlEv.sleepJitter JITTER_MIN JITTER_MAX,
          DlEv.get url (fetch 1), DlEv.sleepJitter JITTER_MIN JITTER_MAX,
          DlEv.get url (fetch 2), DlEv.writeFile outpath (bodyOf (fetch 2))],
          some (urlHost url))) ∧
    (isFail (fetch 0) = true → isFail (fetch 1) = true → isFail (fetch 2) = true →
      download_m3u8 fetch url outpath =
        ([DlEv.get url (fetch 0), DlEv.sleepJitter JITTER_MIN JITTER_MAX,
          DlEv.get url (fetch 1), DlEv.sleepJitter JITTER_MIN JITTER_MAX,
          DlEv.get url (fetch 2)], none)) ∧
    (∀ job : DlJob, infoFalsy job.info = false → hasM3u8 job.info = true →
      (∀ i, isFail (fetch i) = true) → (processEpisodeDl fetch job).ok = false) :=
  ⟨downloadFrom_getCount fetch url outpath RETRIES 0,
    download_ok0 fetch url outpath,
    download_ok1 fetch url outpath,
    download_ok2 fetch url outpath,
    download_all_fail fetch url outpath,
    fun job hif hhm hall => processEpisodeDl_fail_all fetch job hif hhm hall⟩

/-- C7 witness: the all-failing scenario at a concrete transport-error
oracle. -/
theorem c7_fetch_retry_witness :
    download_m3u8 (fun _ => HttpResult.err) "https://h/x.m3u8" "out" =
      ([DlEv.get "https://h/x.m3u8" HttpResult.err,
        DlEv.sleepJitter JITTER_MIN JITTER_MAX,
        DlEv.get "https://h/x.m3u8" HttpResult.err,
        DlEv.sleepJitter JITTER_MIN JITTER_MAX,
        DlEv.get "https://h/x.m3u8" HttpResult.err], none) :=
  (c7_fetch_retry (fun _ => HttpResult.err) "https://h/x.m3u8" "out").2.2.2.2.1
    rfl rfl rfl

/-- C8 counterexample: the affinity-cache key is
`urlparse(url).netloc` — the host alone — not the scheme+host origin
the claim states.  After a successful resolution on
`https://cdn.example.com/path` the cache holds the key
`cdn.example.com`, and a lookup at the scheme+host origin
`https://cdn.example.com` misses. -/
theorem c8_origin_key_counterexample :
    get_domain "https://cdn.example.com/path" = "cdn.example.com" ∧
    "cdn.example.com" ≠ "https://cdn.example.com" ∧
    (processEpisodeExtract (fun _ _ => some "https://m/x.m3u8") []
        [("P", "https://cdn.example.com/path")]).cache = [("cdn.example.com", "P")] ∧
    lookupCache [("cdn.example.com", "P")] "https://cdn.example.com" = none := by
  decide

/-- C8 (amended): the affinity cache is keyed by the host (netloc) of
the candidate URL, without the scheme: every reordering lookup tests
`cache.get(get_domain(url)) == label`, and every write after a
successful resolution stores at key `get_domain(url)`; on a
well-formed `https://host/...` URL, `get_domain` returns exactly the
host part. -/
theorem c8_origin_key :
    (∀ host rest : String, (∀ c ∈ host.data, isNetlocStop c = false) →
      get_domain ("https://" ++ host ++ "/" ++ rest) = host) ∧
    (∀ (tryC : String → Nat → Option String) (cache : List (String × String))
        (pname url m : String), tryC url REQUEST_TIMEOUT = some m →
      (tryPlayers tryC cache [(pname, url)]).cache = cacheSet cache (get_domain url) pname) ∧
    (∀ (cache : List (String × String)) (c : String × String),
      cacheHit cache c = (lookupCache cache (get_domain c.2) == some c.1)) ∧
    get_domain "https://cdn.example.com/path" = "cdn.example.com" := by
  refine ⟨fun host rest hh => (parse_https host rest hh).1, ?_, fun _ _ => rfl, by decide⟩
  intro tryC cache pname url m h
  simp [tryPlayers, h]

/-- C8 witness: the host-extraction law at a concrete host and path. -/
theorem c8_origin_key_witness :
    get_domain ("https://" ++ "cdn.example.com" ++ "/" ++ "play.m3u8") =
      "cdn.example.com" :=
  c8_origin_key.1 "cdn.example.com" "play.m3u8" (by decide)

/-- C9: `safe_name` is idempotent; its result contains only characters
in `[A-Za-z0-9_]`, has no leading or trailing underscore, and contains
no two adjacent non-alphanumeric characters (every maximal
non-alphanumeric run of the input was collapsed to one underscore). -/
theorem c9_safe_name :
    (∀ s : String, safe_name (safe_name s) = safe_name s) ∧
    (∀ s : String, ∀ c ∈ (safe_name s).data, isAlnumAscii c = true ∨ c = '_') ∧
    (∀ s : String,
      (safe_name s).data.head? ≠ some '_' ∧ (safe_name s).data.getLast? ≠ some '_') ∧
    (∀ s : String, noRuns (safe_name s).data = true) ∧
    safe_name "My Show: S01/E02!" = "My_Show_S01_E02" :=
  ⟨safe_name_idem, safe_name_chars,
    fun s => ⟨safe_name_head s, safe_name_getLast s⟩, safe_name_noRuns, by decide⟩

/-- C9 witness: the charset law at a concrete character of a concrete
derived name. -/
theorem c9_safe_name_witness :
    isAlnumAscii 'M' = true ∨ 'M' = '_' :=
  c9_safe_name.2.1 "My Show: S01/E02!" 'M' (by decide)

/-- C10: a download job whose `info` is `null` (or lacks `"m3u8_url"`)
is marked failed immediately with an empty side-effect trace — no
directory creation, no sleep, no HTTP request, no file write — and,
since its outcome is `false` on every pass, it is re-queued into every
one of the `fuel` executed passes of `adaptive_runner` and is still
pending at exit. -/
theorem c10_null_info (fetch : Nat → HttpResult) (job : DlJob) (jobs : List DlJob)
    (minC maxC passIdx fuel conc : Nat)
    (hbad : infoFalsy job.info = true ∨ hasM3u8 job.info = false) :
    processEpisodeDl fetch job = ⟨[], false⟩ ∧
    (job ∈ jobs →
      job ∈ (adaptiveRunner minC maxC (dlOutcome fetch) passIdx fuel jobs conc).pending ∧
      (∀ p ∈ (adaptiveRunner minC maxC (dlOutcome fetch) passIdx fuel jobs conc).passJobs,
        job ∈ p) ∧
      (adaptiveRunner minC maxC (dlOutcome fetch) passIdx fuel jobs conc).passJobs.length =
        fuel) := by
  have hfail : processEpisodeDl fetch job = ⟨[], false⟩ := processEpisodeDl_bad fetch job hbad
  refine ⟨hfail, fun hj => ?_⟩
  have hout : ∀ i, dlOutcome fetch i job = false := by
    intro i
    rw [dlOutcome, hfail]
  exact adaptiveRunner_stuck_job minC maxC (dlOutcome fetch) job hout fuel passIdx jobs conc hj

/-- C10 witness: a concrete `null`-info job is failed with no events
and survives all five download passes as pending. -/
theorem c10_null_info_witness :
    processEpisodeDl (fun _ => HttpResult.err) ⟨"c", "s", "e", none⟩ = ⟨[], false⟩ ∧
    (adaptiveRunner 1 10 (dlOutcome (fun _ => HttpResult.err)) 0 5
        [⟨"c", "s", "e", none⟩] 8).passJobs.length = 5 :=
  ⟨(c10_null_info (fun _ => HttpResult.err) ⟨"c", "s", "e", none⟩
      [⟨"c", "s", "e", none⟩] 1 10 0 5 8 (Or.inl rfl)).1,
    ((c10_null_info (fun _ => HttpResult.err) ⟨"c", "s", "e", none⟩
        [⟨"c", "s", "e", none⟩] 1 10 0 5 8 (Or.inl rfl)).2
      (List.mem_singleton.mpr rfl)).2.2⟩
